import Mathlib

/-
Shallow embedding of hyperglass/models/config/devices.py: device identity
normalization, platform alias resolution, directive resolution, attribute
cross-validation, and the device directory, together with theorems checking
the specification's claims about them.

External collaborators that the source file imports but whose code is not part
of the repository snapshot (the directive catalog operations, the platform
alias table, the format-key extractor, the structured-output platform list)
are modelled from the specification; each such definition carries a doc
comment saying so.
-/

namespace Hyperglass

/-! ## Identity normalizer (Device._generate_id) -/

/-- Whitespace as matched by the Python regex class backslash-s and by
str.split with no argument: space, tab, newline, carriage return, vertical
tab, form feed. -/
def isPyWs (c : Char) : Bool :=
  c = ' ' || c = '\t' || c = '\n' || c = '\r' || c = Char.ofNat 11 || c = Char.ofNat 12

/-- ASCII uppercase letter, by code point. -/
def isAsciiUpper (c : Char) : Bool :=
  decide (65 ≤ c.toNat) && decide (c.toNat ≤ 90)

/-- ASCII lowercase letter, by code point. -/
def isAsciiLower (c : Char) : Bool :=
  decide (97 ≤ c.toNat) && decide (c.toNat ≤ 122)

/-- ASCII digit, by code point. -/
def isAsciiDigit (c : Char) : Bool :=
  decide (48 ≤ c.toNat) && decide (c.toNat ≤ 57)

/-- Characters kept by the scrub step of generate_id, the complement of the
regex class used in re.sub: letters, digits, underscore, hyphen, whitespace. -/
def isKept (c : Char) : Bool :=
  isAsciiUpper c || isAsciiLower c || isAsciiDigit c || c = '_' || c = '-' || isPyWs c

/-- Python str.split with no argument: split on whitespace runs, dropping
empty tokens. The second argument accumulates the current token reversed. -/
def splitWs : List Char → List Char → List (List Char)
  | [], [] => []
  | [], acc => [acc.reverse]
  | c :: rest, acc =>
    if isPyWs c then
      match acc with
      | [] => splitWs rest []
      | _ :: _ => acc.reverse :: splitWs rest []
    else splitWs rest (c :: acc)

/-- Python str.join with an underscore separator, on character lists. -/
def joinUnd : List (List Char) → List Char
  | [] => []
  | [t] => t
  | t :: ts => t ++ '_' :: joinUnd ts

/-- The inner generate_id closure of Device._generate_id: scrub disallowed
characters, split on whitespace, join with underscores, lowercase. -/
def generate_id (name : String) : String :=
  String.mk ((joinUnd (splitWs (name.data.filter isKept) [])).map Char.toLower)

/-- State machine replacing every maximal whitespace run by one underscore;
the flag records whether we are inside a whitespace run. -/
def runRep : List Char → Bool → List Char
  | [], _ => []
  | c :: rest, inRun =>
    if isPyWs c then
      if inRun then runRep rest true else '_' :: runRep rest true
    else c :: runRep rest false

/-- Remove leading and trailing whitespace. -/
def trimWs (l : List Char) : List Char :=
  ((l.dropWhile isPyWs).reverse.dropWhile isPyWs).reverse

/-- The claim's wording of the whitespace step, read literally: every maximal
whitespace run of the scrubbed name, including a leading or trailing run, is
replaced by a single underscore. -/
def generateIdRunsLiteral (name : String) : String :=
  String.mk ((runRep (name.data.filter isKept) false).map Char.toLower)

/-- The amended wording of the whitespace step: leading and trailing
whitespace runs are removed, each interior run becomes a single underscore. -/
def generateIdRunsTrimmed (name : String) : String :=
  String.mk ((runRep (trimWs (name.data.filter isKept)) false).map Char.toLower)

/-- Characters allowed in a derived device id: lowercase ASCII letters,
digits, underscore, hyphen. -/
def isIdChar (c : Char) : Bool :=
  isAsciiLower c || isAsciiDigit c || c = '_' || c = '-'

/-! ## Data model: errors, directives, devices -/

/-- The error shapes device construction can produce: ConfigError (with the
offending device name and the field or value at fault), UnsupportedDevice,
and a plain ValueError as raised by Device._generate_id. -/
inductive DevError
  | configError (message : String) (device : String) (detail : String)
  | unsupportedDevice (platform : String)
  | valueError (message : String)
deriving DecidableEq, Repr

/-- A directive rule: carries the command template strings. -/
structure Rule where
  commands : List String
deriving DecidableEq, Repr

/-- Modelled from the spec: a Directive (hyperglass.models.directive, not
under src) is a named command template set with an id, rules each holding
command strings, plugin file references, and a notion of being a built-in for
certain platforms. -/
structure Directive where
  id : String
  rules : List Rule
  plugins : List String
  builtinPlatforms : List String
deriving DecidableEq, Repr

/-- A network grouping; only its display name matters to this module. -/
structure Network where
  display_name : String
deriving DecidableEq, Repr

/-- An opaque connection credential (external entity). -/
structure Credential where
  username : String
  password : String
deriving DecidableEq, Repr

/-- The validated Device model: the fields of the pydantic Device class that
this module reads or writes. -/
structure Device where
  id : String
  name : String
  address : String
  network : Network
  credential : Credential
  proxy : Option String
  port : Nat
  platform : String
  directives : List Directive
  structured_output : Bool
  attrs : List (String × String)
deriving DecidableEq, Repr

/-- The value of the builtins option of DirectiveOptions: a strict bool or a
list of builtin directive ids; the default is the boolean true. -/
inductive BuiltinsValue
  | bool (b : Bool)
  | ids (l : List String)
deriving DecidableEq, Repr

/-- One element of the raw directives list: either a plain string directive
id, or a mapping entry; of a mapping only a possible builtins key matters,
since DirectiveOptions ignores unrecognized keys. -/
inductive DirectiveEntry
  | ref (id : String)
  | options (builtins : Option BuiltinsValue)
deriving DecidableEq, Repr

/-- A raw per-device definition map, before validation. -/
structure RawDevice where
  name : Option String
  display_name : Option String
  address : String
  network : Network
  credential : Credential
  proxy : Option String
  port : Option Nat
  platform : Option String
  directives : List DirectiveEntry
  structured_output : Option Bool
  attrs : List (String × String)
deriving DecidableEq, Repr

/-- The external inputs device validation consults: the directive catalog,
the supported platform list, the platforms supporting structured output, and
the platform alias table. -/
structure Env where
  catalog : List Directive
  supportedPlatforms : List String
  structuredPlatforms : List String
  scrapeHelpers : List (String × String)
deriving Repr

/-! ## Directive catalog operations -/

/-- Modelled from the spec: Directives.filter_by_ids (not under src) resolves
explicit directive ids against the catalog. -/
def filterByIds (catalog : List Directive) (ids : List String) : List Directive :=
  catalog.filter (fun d => ids.contains d.id)

/-- Modelled from the spec: Directives.device_builtins (not under src)
returns the catalog's built-in directives scoped to a platform. -/
def deviceBuiltins (catalog : List Directive) (platform : String) : List Directive :=
  catalog.filter (fun d => d.builtinPlatforms.contains platform)

/-- Modelled from the spec: Directives.matching (not under src) restricts a
directive collection to the given ids. -/
def matchingDirectives (ds : List Directive) (ids : List String) : List Directive :=
  ds.filter (fun d => ids.contains d.id)

/-- Modelled from the spec: adding two directive collections removes
duplicates by id keeping the first occurrence (spec section 4.3 step 7). -/
def dedupById (ds : List Directive) : List Directive :=
  ds.foldl (fun acc d => if acc.any (fun e => e.id = d.id) then acc else acc ++ [d]) []

/-- Modelled from the spec: concatenation of directive collections as
performed by the += steps of Device.validate_device, explicit entries first,
then built-ins, duplicates by id removed keeping the first occurrence. -/
def addDirectives (a b : List Directive) : List Directive :=
  dedupById (a ++ b)

/-- Python str.startswith applied to the double underscore sentinel. -/
def startsWithDunder (s : String) : Bool :=
  match s.data with
  | c1 :: c2 :: _ => c1 = '_' && c2 = '_'
  | _ => false

/-- The merged DirectiveOptions builtins value: all mapping entries of the
raw directives list are merged into one dict (later entries override earlier
ones for the same key) and parsed with default true. -/
def mergedBuiltinsOption (entries : List DirectiveEntry) : BuiltinsValue :=
  entries.foldl
    (fun acc e =>
      match e with
      | .ref _ => acc
      | .options b =>
        match b with
        | some v => v
        | none => acc)
    (.bool true)

/-- The directive-resolution part of Device.validate_device: string entries
not starting with a double underscore are resolved against the catalog, then
the platform built-ins selected by the merged builtins option are appended. -/
def resolve_directives (catalog : List Directive) (platform : String)
    (entries : List DirectiveEntry) : List Directive :=
  let directiveIds := entries.filterMap
    (fun e =>
      match e with
      | .ref s => if startsWithDunder s then none else some s
      | .options _ => none)
  let deviceDirectives := filterByIds catalog directiveIds
  let builtins := deviceBuiltins catalog platform
  match mergedBuiltinsOption entries with
  | .bool true => addDirectives deviceDirectives builtins
  | .bool false => deviceDirectives
  | .ids l => addDirectives deviceDirectives (matchingDirectives builtins l)

/-! ## Platform resolution, structured output, attribute validation -/

/-- The SCRAPE_HELPERS rewrite of Device.validate_device: if the platform is
a key of the alias table, replace it by the canonical value. -/
def rewriteAlias (helpers : List (String × String)) (p : String) : String :=
  match helpers.find? (fun kv => kv.1 = p) with
  | some kv => kv.2
  | none => p

/-- Modelled from the spec: the static platform alias table
(hyperglass.constants SCRAPE_HELPERS, not under src); the spec names the
alias ios for the canonical cisco_ios. -/
def SCRAPE_HELPERS : List (String × String) := [("ios", "cisco_ios")]

/-- Device.validate_structured_output: explicit true on an unsupported
platform is a ConfigError, unset defaults to whether the platform supports
structured output, anything else becomes false. -/
def validate_structured_output (value : Option Bool) (platform name : String)
    (structuredPlatforms : List String) : Except DevError Bool :=
  match value with
  | some true =>
    if structuredPlatforms.contains platform then .ok true
    else .error (.configError "structured_output true on platform without structured output support" name platform)
  | some false => .ok false
  | none => if structuredPlatforms.contains platform then .ok true else .ok false

/-- Scanner for format placeholders: characters between an opening and a
closing brace are collected as a key. -/
def fmtScan : List Char → Option (List Char) → List String
  | [], _ => []
  | c :: rest, none =>
    if c = Char.ofNat 123 then fmtScan rest (some []) else fmtScan rest none
  | c :: rest, some acc =>
    if c = Char.ofNat 125 then String.mk acc.reverse :: fmtScan rest none
    else fmtScan rest (some (c :: acc))

/-- Modelled from the spec: get_fmt_keys (hyperglass.util, not under src)
extracts the named template placeholder keys of a command string. -/
def get_fmt_keys (command : String) : List String :=
  fmtScan command.data none

/-- Device.directive_commands: all commands of all rules of all resolved
directives of a device. -/
def directive_commands (directives : List Directive) : List String :=
  directives.flatMap (fun d => d.rules.flatMap Rule.commands)

/-- Keep-first deduplication of a key list, the Python set of keys. -/
def dedupKeys (ks : List String) : List String :=
  ks.foldl (fun acc k => if acc.contains k then acc else acc ++ [k]) []

/-- The set of placeholder keys built by Device._validate_directive_attrs:
every format key of every directive command, except the reserved target. -/
def fmtKeys (directives : List Directive) : List String :=
  dedupKeys (((directive_commands directives).flatMap get_fmt_keys).filter
    (fun k => k ≠ "target"))

/-- Whether the attrs mapping has a value for a key. -/
def attrsHaveKey (attrs : List (String × String)) (k : String) : Bool :=
  attrs.any (fun kv => kv.1 = k)

/-- Device._validate_directive_attrs: every collected key must exist in the
device attrs; otherwise a ConfigError naming the device and the key. -/
def validate_directive_attrs (d : Device) : Except DevError Unit :=
  match (fmtKeys d.directives).find? (fun k => !(attrsHaveKey d.attrs k)) with
  | some k => .error (.configError "command references attribute missing from device attributes" d.name k)
  | none => .ok ()

/-! ## Device construction -/

/-- Device.export_api projects the public-facing fields. -/
structure DeviceExport where
  id : String
  name : String
  network : String
deriving DecidableEq, Repr

/-- Device.export_api: id, name, and the network display name, and nothing
else. -/
def export_api (d : Device) : DeviceExport :=
  { id := d.id, name := d.name, network := d.network.display_name }

/-- Device construction: Device.__init__ composed of _generate_id, the
validate_device root validator (platform rewrite, support check, directive
resolution), the structured_output validator, and _validate_directive_attrs.
Hostname resolution, ssl defaulting and driver resolution are external
side effects not modelled here; they do not touch the fields the claims are
about. -/
def deviceConstruct (env : Env) (raw : RawDevice) : Except DevError Device :=
  match raw.name with
  | none => .error (.valueError "name is required.")
  | some nm =>
    let idName : String × String :=
      match raw.display_name with
      | some legacy => (generate_id legacy, legacy)
      | none => (generate_id nm, nm)
    match raw.platform with
    | none => .error (.configError "device is missing a platform property" idName.2 "")
    | some p0 =>
      let platform := rewriteAlias env.scrapeHelpers p0
      if env.supportedPlatforms.contains platform then
        let dirs := resolve_directives env.catalog platform raw.directives
        match validate_structured_output raw.structured_output platform idName.2
            env.structuredPlatforms with
        | .error e => .error e
        | .ok so =>
          let d : Device :=
            { id := idName.1, name := idName.2, address := raw.address
            , network := raw.network, credential := raw.credential
            , proxy := raw.proxy, port := raw.port.getD 22
            , platform := platform, directives := dirs
            , structured_output := so, attrs := raw.attrs }
          match validate_directive_attrs d with
          | .error e => .error e
          | .ok _ => .ok d
      else .error (.unsupportedDevice platform)

/-! ## The device directory (Devices) -/

/-- The Devices aggregate: id list, hostname list, and the deduplicated,
name-sorted device objects. -/
structure Devices where
  ids : List String
  hostnames : List String
  objects : List Device
deriving DecidableEq, Repr

/-- Python set.add on a set of devices whose equality and hash are defined by
id (spec section 4.6): adding an element equal to a present one keeps the
present one. -/
def pySetAddDevice (s : List Device) (d : Device) : List Device :=
  if s.any (fun e => e.id = d.id) then s else s ++ [d]

/-- Python set.add on a set of strings: adding a present element is a no-op. -/
def pySetAddStr (s : List String) (x : String) : List String :=
  if s.contains x then s else s ++ [x]

/-- Byte-wise string comparison, the order Python sorted uses on str keys. -/
def charListLe : List Char → List Char → Bool
  | [], _ => true
  | _ :: _, [] => false
  | a :: as, b :: bs =>
    if a.toNat < b.toNat then true
    else if b.toNat < a.toNat then false
    else charListLe as bs

/-- Insert a device into a list sorted by name. -/
def insertByName (d : Device) : List Device → List Device
  | [] => [d]
  | e :: rest =>
    if charListLe d.name.data e.name.data then d :: e :: rest
    else e :: insertByName d rest

/-- Sort devices by name, as sorted with a name key does. -/
def sortByName (ds : List Device) : List Device :=
  ds.foldr insertByName []

/-- Devices.__init__: construct every device, accumulate ids, hostnames and
the device set, and sort the objects by name. -/
def devicesInit (env : Env) (input : List RawDevice) : Except DevError Devices :=
  match input.mapM (deviceConstruct env) with
  | .error e => .error e
  | .ok ds =>
    .ok { ids := ds.foldl (fun a d => pySetAddStr a d.id) []
        , hostnames := ds.foldl (fun a d => pySetAddStr a d.name) []
        , objects := sortByName (ds.foldl pySetAddDevice []) }

/-- Devices.export_api maps the per-device export over the objects. -/
def devicesExportApi (devs : Devices) : List DeviceExport :=
  devs.objects.map export_api

/-- Update the plugin index: add a directive id to the entry of a plugin,
creating the entry when absent, ignoring an already recorded id. -/
def addPluginId : List (String × List String) → String → String → List (String × List String)
  | [], p, i => [(p, [i])]
  | e :: rest, p, i =>
    if e.1 = p then (e.1, if e.2.contains i then e.2 else e.2 ++ [i]) :: rest
    else e :: addPluginId rest p i

/-- Devices.directive_plugins: over the set of all directives of all
devices, map each plugin file reference to the ids of the directives that
reference it. -/
def directive_plugins (devs : Devices) : List (String × List String) :=
  let dirs := dedupById (devs.objects.flatMap Device.directives)
  let pluginNames := dirs.flatMap Directive.plugins
  dirs.foldl
    (fun result dir =>
      (dir.plugins.filter (fun p => pluginNames.contains p)).foldl
        (fun res p => addPluginId res p dir.id) result)
    []

/-- Look up the id list recorded for a plugin in the plugin index. -/
def lookupPlugin (res : List (String × List String)) (p : String) : Option (List String) :=
  (res.find? (fun e => e.1 = p)).map (fun e => e.2)

/-! ## Specification-side definitions for the refinement claims -/

/-- The claim's description of directive resolution, written independently:
recursive duplicate removal keeping the first occurrence. -/
def specDedup : List Directive → List Directive
  | [] => []
  | d :: rest => d :: specDedup (rest.filter (fun e => e.id ≠ d.id))
termination_by l => l.length
decreasing_by
  simp only [List.length_cons]
  exact Nat.lt_succ_of_le (List.length_filter_le _ _)

/-- The claim's description of the builtins option: the value of the last
mapping entry carrying a builtins key, default true. -/
def specBuiltinsChoice (entries : List DirectiveEntry) : BuiltinsValue :=
  (entries.reverse.findSome?
    (fun e =>
      match e with
      | .options (some v) => some v
      | _ => none)).getD (.bool true)

/-- The claim's description of the resolved directives field: explicit
entries resolved against the catalog, followed by the effective built-ins
(all, a listed subset, or none), duplicates by id removed keeping the first
occurrence. -/
def c2SpecDirectives (catalog : List Directive) (platform : String)
    (entries : List DirectiveEntry) : List Directive :=
  let explicitIds := entries.filterMap
    (fun e =>
      match e with
      | .ref s => if startsWithDunder s then none else some s
      | .options _ => none)
  let explicitDirs := catalog.filter (fun d => explicitIds.contains d.id)
  let allBuiltins := catalog.filter (fun d => d.builtinPlatforms.contains platform)
  let included :=
    match specBuiltinsChoice entries with
    | .bool true => allBuiltins
    | .bool false => []
    | .ids l => allBuiltins.filter (fun d => l.contains d.id)
  specDedup (explicitDirs ++ included)

/-! ## Character-level lemmas for the identity normalizer -/

/-- Char.toLower is the identity off the ASCII uppercase range. -/
theorem toLower_eq_self (c : Char) (h : isAsciiUpper c = false) : c.toLower = c := by
  have h2 : ¬(c.toNat ≥ 65 ∧ c.toNat ≤ 90) := by
    simp [isAsciiUpper] at h
    omega
  simp [Char.toLower, h2]

/-- On ASCII uppercase, Char.toLower adds 32 to the code point. -/
theorem toNat_toLower_of_upper (c : Char) (h : isAsciiUpper c = true) :
    c.toLower.toNat = c.toNat + 32 := by
  have h2 : c.toNat ≥ 65 ∧ c.toNat ≤ 90 := by
    simp [isAsciiUpper] at h
    omega
  have hv : Nat.isValidChar (c.toNat + 32) := Or.inl (by omega)
  simp [Char.toLower, h2, Char.ofNat, hv]
  rfl

/-- Whitespace characters have code points at most 32. -/
theorem toNat_le_of_ws (c : Char) (h : isPyWs c = true) : c.toNat ≤ 32 := by
  simp [isPyWs] at h
  rcases h with ((((h | h) | h) | h) | h) | h <;> subst h <;> decide

/-- Id characters have code points at least 45. -/
theorem toNat_ge_of_idChar (c : Char) (h : isIdChar c = true) : 45 ≤ c.toNat := by
  simp [isIdChar, isAsciiLower, isAsciiDigit] at h
  rcases h with ((h | h) | h) | h
  · omega
  · omega
  · subst h; decide
  · subst h; decide

/-- An id character is never whitespace. -/
theorem not_ws_of_idChar (c : Char) (h : isIdChar c = true) : isPyWs c = false := by
  cases hw : isPyWs c
  · rfl
  · have h1 := toNat_le_of_ws c hw
    have h2 := toNat_ge_of_idChar c h
    omega

/-- An id character survives the scrub filter. -/
theorem isKept_of_idChar (c : Char) (h : isIdChar c = true) : isKept c = true := by
  simp [isIdChar] at h
  simp [isKept]
  tauto

/-- An id character is not ASCII uppercase, hence fixed by Char.toLower. -/
theorem toLower_eq_self_of_idChar (c : Char) (h : isIdChar c = true) : c.toLower = c := by
  apply toLower_eq_self
  cases hu : isAsciiUpper c
  · rfl
  · exfalso
    simp [isAsciiUpper] at hu
    simp [isIdChar, isAsciiLower, isAsciiDigit] at h
    rcases h with ((h | h) | h) | h
    · omega
    · omega
    · subst h; revert hu; decide
    · subst h; revert hu; decide

/-- Lowercasing a kept non-whitespace character yields an id character. -/
theorem isIdChar_toLower (c : Char) (hk : isKept c = true) (hw : isPyWs c = false) :
    isIdChar c.toLower = true := by
  cases hu : isAsciiUpper c
  · rw [toLower_eq_self c hu]
    simp [isKept, hw, hu] at hk
    simp [isIdChar]
    tauto
  · have h1 := toNat_toLower_of_upper c hu
    have h2 : 65 ≤ c.toNat ∧ c.toNat ≤ 90 := by
      simp [isAsciiUpper] at hu
      omega
    simp [isIdChar, isAsciiLower, isAsciiDigit, h1]
    omega

/-! ## Structural lemmas about splitting and joining -/

/-- Every character of every token of splitWs satisfies any property enjoyed
by the non-whitespace input characters and the accumulator characters. -/
theorem splitWs_chars (P : Char → Prop) :
    ∀ (l acc : List Char), (∀ c ∈ l, isPyWs c = false → P c) → (∀ c ∈ acc, P c) →
      ∀ t ∈ splitWs l acc, ∀ c ∈ t, P c := by
  intro l
  induction l with
  | nil =>
    intro acc h1 h2 t ht c hc
    cases acc with
    | nil => simp [splitWs] at ht
    | cons a as =>
      simp [splitWs] at ht
      subst ht
      exact h2 c (by simp only [List.mem_append, List.mem_reverse, List.mem_singleton, List.mem_cons] at hc ⊢; tauto)
  | cons d rest ih =>
    intro acc h1 h2 t ht c hc
    by_cases hws : isPyWs d = true
    · cases acc with
      | nil =>
        simp [splitWs, hws] at ht
        exact ih [] (fun x hx => h1 x (List.mem_cons_of_mem d hx)) (by simp) t ht c hc
      | cons a as =>
        simp [splitWs, hws] at ht
        rcases ht with ht | ht
        · subst ht
          exact h2 c (by simp only [List.mem_append, List.mem_reverse, List.mem_singleton, List.mem_cons] at hc ⊢; tauto)
        · exact ih [] (fun x hx => h1 x (List.mem_cons_of_mem d hx)) (by simp) t ht c hc
    · simp [splitWs, hws] at ht
      refine ih (d :: acc) (fun x hx => h1 x (List.mem_cons_of_mem d hx)) ?_ t ht c hc
      intro x hx
      rcases List.mem_cons.mp hx with hx | hx
      · subst hx
        exact h1 x (List.mem_cons_self _ _) (by simpa using hws)
      · exact h2 x hx

/-- On whitespace-free input splitWs yields at most one token: the
accumulator followed by the input. -/
theorem splitWs_no_ws :
    ∀ (l acc : List Char), (∀ c ∈ l, isPyWs c = false) →
      splitWs l acc = if acc.reverse ++ l = [] then [] else [acc.reverse ++ l] := by
  intro l
  induction l with
  | nil =>
    intro acc _
    cases acc with
    | nil => simp [splitWs]
    | cons a as => simp [splitWs]
  | cons d rest ih =>
    intro acc h
    have hd : isPyWs d = false := h d (List.mem_cons_self _ _)
    have hrest : ∀ c ∈ rest, isPyWs c = false := fun c hc => h c (List.mem_cons_of_mem d hc)
    simp [splitWs, hd]
    rw [ih (d :: acc) hrest]
    simp

/-- A character list whose last character, when present, is not whitespace. -/
def noTrailWs (l : List Char) : Prop :=
  ∀ c, l.getLast? = some c → isPyWs c = false

/-- splitWs yields a token when the accumulator is nonempty or some input
character is not whitespace. -/
theorem splitWs_ne_nil :
    ∀ (l acc : List Char), (acc ≠ [] ∨ ∃ c ∈ l, isPyWs c = false) →
      splitWs l acc ≠ [] := by
  intro l
  induction l with
  | nil =>
    intro acc h
    rcases h with h | h
    · cases acc with
      | nil => exact absurd rfl h
      | cons a as => simp [splitWs]
    · simp at h
  | cons d rest ih =>
    intro acc h
    by_cases hws : isPyWs d = true
    · cases acc with
      | nil =>
        simp [splitWs, hws]
        apply ih
        right
        rcases h with h | ⟨c, hc, hcw⟩
        · exact absurd rfl h
        · rcases List.mem_cons.mp hc with hc | hc
          · subst hc; rw [hws] at hcw; exact absurd hcw (by simp)
          · exact ⟨c, hc, hcw⟩
      | cons a as => simp [splitWs, hws]
    · simp [splitWs, hws]
      apply ih
      left
      simp

/-- Joining the tokens of splitWs equals replacing whitespace runs by single
underscores, provided the input has no trailing whitespace; the run-state
starts inside a run exactly when the accumulator is empty. -/
theorem joinUnd_splitWs :
    ∀ (l acc : List Char), noTrailWs l →
      joinUnd (splitWs l acc) = acc.reverse ++ runRep l acc.isEmpty := by
  intro l
  induction l with
  | nil =>
    intro acc _
    cases acc with
    | nil => simp [splitWs, joinUnd, runRep]
    | cons a as => simp [splitWs, joinUnd, runRep]
  | cons d rest ih =>
    intro acc hnt
    by_cases hws : isPyWs d = true
    · have hrest_ne : rest ≠ [] := by
        intro hre
        subst hre
        have := hnt d (by simp)
        rw [hws] at this
        exact absurd this (by simp)
      have hnt_rest : noTrailWs rest := by
        intro c hc
        apply hnt
        cases rest with
        | nil => exact absurd rfl hrest_ne
        | cons e es => rw [List.getLast?_cons_cons]; exact hc
      have hlast : ∃ c ∈ rest, isPyWs c = false := by
        cases hre : rest.getLast? with
        | none => simp [List.getLast?_eq_none_iff] at hre; exact absurd hre hrest_ne
        | some c =>
          refine ⟨c, ?_, hnt_rest c hre⟩
          exact List.mem_of_mem_getLast? hre
      cases acc with
      | nil =>
        simp [splitWs, hws, runRep]
        exact ih [] hnt_rest
      | cons a as =>
        have hne := splitWs_ne_nil rest [] (Or.inr hlast)
        have hj : joinUnd ((a :: as).reverse :: splitWs rest []) =
            (a :: as).reverse ++ '_' :: joinUnd (splitWs rest []) := by
          cases hsp : splitWs rest [] with
          | nil => exact absurd hsp hne
          | cons t ts => simp [joinUnd]
        simp only [splitWs, hws, if_pos]
        rw [hj, ih [] hnt_rest]
        simp [runRep, hws]
    · have hnt_rest : noTrailWs rest := by
        intro c hc
        apply hnt
        cases rest with
        | nil => simp at hc
        | cons e es => rw [List.getLast?_cons_cons]; exact hc
      simp only [splitWs, hws, if_neg, Bool.false_eq_true, not_false_iff]
      rw [ih (d :: acc) hnt_rest]
      simp [runRep, hws]

/-- When the head of the input is not whitespace the run-state flag does not
matter. -/
theorem runRep_true_of_head (l : List Char)
    (h : ∀ c, l.head? = some c → isPyWs c = false) :
    runRep l true = runRep l false := by
  cases l with
  | nil => rfl
  | cons c rest =>
    have := h c rfl
    simp [runRep, this]

/-- Leading whitespace does not affect splitWs with an empty accumulator. -/
theorem splitWs_dropWhile (l : List Char) :
    splitWs (l.dropWhile isPyWs) [] = splitWs l [] := by
  induction l with
  | nil => rfl
  | cons c rest ih =>
    by_cases h : isPyWs c = true
    · rw [List.dropWhile_cons]
      simp only [h, if_pos]
      rw [ih]
      simp [splitWs, h]
    · rw [List.dropWhile_cons]
      simp [h]

/-- An all-whitespace input contributes nothing beyond flushing the
accumulator. -/
theorem splitWs_all_ws :
    ∀ (t : List Char) (acc : List Char), (∀ c ∈ t, isPyWs c = true) →
      splitWs t acc = splitWs [] acc := by
  intro t
  induction t with
  | nil => intro acc _; rfl
  | cons c rest ih =>
    intro acc h
    have hc : isPyWs c = true := h c (List.mem_cons_self _ _)
    cases acc with
    | nil =>
      simp [splitWs, hc]
      rw [ih [] (fun x hx => h x (List.mem_cons_of_mem c hx))]
      rfl
    | cons a as =>
      simp [splitWs, hc]
      have := ih [] (fun x hx => h x (List.mem_cons_of_mem c hx))
      simp [splitWs] at this
      simp [this]

/-- Trailing whitespace does not affect splitWs. -/
theorem splitWs_append_ws :
    ∀ (l t : List Char), (∀ c ∈ t, isPyWs c = true) →
      ∀ acc, splitWs (l ++ t) acc = splitWs l acc := by
  intro l
  induction l with
  | nil =>
    intro t h acc
    simpa using splitWs_all_ws t acc h
  | cons d rest ih =>
    intro t h acc
    by_cases hws : isPyWs d = true
    · cases acc with
      | nil => simp [splitWs, hws, ih t h]
      | cons a as => simp [splitWs, hws, ih t h]
    · simp [splitWs, hws, ih t h]

/-- The head of a dropWhile result falsifies the predicate. -/
theorem head_dropWhile_not (p : Char → Bool) :
    ∀ (l : List Char) (c : Char), (l.dropWhile p).head? = some c → p c = false := by
  intro l
  induction l with
  | nil => intro c h; simp at h
  | cons d rest ih =>
    intro c h
    by_cases hd : p d = true
    · rw [List.dropWhile_cons, if_pos hd] at h
      exact ih c h
    · rw [List.dropWhile_cons, if_neg hd] at h
      simp at h
      subst h
      simpa using hd

/-- After removing leading whitespace, a list is its trim followed by its
trailing whitespace run. -/
theorem trimWs_decomp (l : List Char) :
    l.dropWhile isPyWs =
      trimWs l ++ ((l.dropWhile isPyWs).reverse.takeWhile isPyWs).reverse := by
  have h := List.takeWhile_append_dropWhile isPyWs (l.dropWhile isPyWs).reverse
  have h2 := congrArg List.reverse h
  rw [List.reverse_append, List.reverse_reverse] at h2
  unfold trimWs
  exact h2.symm

/-- The trim of a list has no trailing whitespace. -/
theorem noTrailWs_trimWs (l : List Char) : noTrailWs (trimWs l) := by
  intro c hc
  unfold trimWs at hc
  rw [List.getLast?_reverse] at hc
  exact head_dropWhile_not isPyWs _ c hc

/-- The trim of a list has no leading whitespace. -/
theorem head_trimWs (l : List Char) :
    ∀ c, (trimWs l).head? = some c → isPyWs c = false := by
  intro c hc
  have hhead : (l.dropWhile isPyWs).head? = some c := by
    rw [trimWs_decomp l]
    cases ht : trimWs l with
    | nil => rw [ht] at hc; simp at hc
    | cons a as => rw [ht] at hc; simpa using hc
  exact head_dropWhile_not isPyWs l c hhead

/-- The split-and-join computation of generate_id agrees with replacing each
interior whitespace run by one underscore after trimming. -/
theorem generate_id_eq_runsTrimmed (name : String) :
    generate_id name = generateIdRunsTrimmed name := by
  unfold generate_id generateIdRunsTrimmed
  congr 2
  have h1 : splitWs (name.data.filter isKept) [] =
      splitWs ((name.data.filter isKept).dropWhile isPyWs) [] :=
    (splitWs_dropWhile (name.data.filter isKept)).symm
  have hws_tail : ∀ c ∈
      (((name.data.filter isKept).dropWhile isPyWs).reverse.takeWhile isPyWs).reverse,
      isPyWs c = true := by
    intro c hc
    rw [List.mem_reverse] at hc
    exact List.mem_takeWhile_imp hc
  have h2 : splitWs ((name.data.filter isKept).dropWhile isPyWs) [] =
      splitWs (trimWs (name.data.filter isKept)) [] := by
    conv_lhs => rw [trimWs_decomp (name.data.filter isKept)]
    exact splitWs_append_ws (trimWs (name.data.filter isKept)) _ hws_tail []
  have h3 : joinUnd (splitWs (trimWs (name.data.filter isKept)) []) =
      runRep (trimWs (name.data.filter isKept)) true := by
    have := joinUnd_splitWs (trimWs (name.data.filter isKept)) []
      (noTrailWs_trimWs (name.data.filter isKept))
    simpa using this
  rw [h1, h2, h3,
    runRep_true_of_head (trimWs (name.data.filter isKept))
      (head_trimWs (name.data.filter isKept))]

/-- A character of a joined token list is the separator or a token character. -/
theorem mem_joinUnd :
    ∀ (ts : List (List Char)) (c : Char), c ∈ joinUnd ts → c = '_' ∨ ∃ t ∈ ts, c ∈ t := by
  intro ts
  induction ts with
  | nil => intro c hc; simp [joinUnd] at hc
  | cons t rest ih =>
    intro c hc
    cases rest with
    | nil =>
      right
      exact ⟨t, by simp, by simpa [joinUnd] using hc⟩
    | cons u us =>
      rw [show joinUnd (t :: u :: us) = t ++ '_' :: joinUnd (u :: us) from rfl] at hc
      rcases List.mem_append.mp hc with hc | hc
      · right; exact ⟨t, by simp, hc⟩
      · rcases List.mem_cons.mp hc with hc | hc
        · left; exact hc
        · rcases ih c hc with h | ⟨t2, ht2, hct⟩
          · left; exact h
          · right; exact ⟨t2, List.mem_cons_of_mem t ht2, hct⟩

/-- Every character of a derived id is a lowercase letter, digit, underscore
or hyphen. -/
theorem generate_id_chars (name : String) :
    ∀ c ∈ (generate_id name).data, isIdChar c = true := by
  intro c hc
  have hdata : (generate_id name).data =
      (joinUnd (splitWs (name.data.filter isKept) [])).map Char.toLower := rfl
  rw [hdata] at hc
  rcases List.mem_map.mp hc with ⟨b, hb, rfl⟩
  rcases mem_joinUnd _ b hb with h | ⟨t, ht, hbt⟩
  · subst h; decide
  · have hP : isKept b = true ∧ isPyWs b = false := by
      refine splitWs_chars (fun c => isKept c = true ∧ isPyWs c = false)
        (name.data.filter isKept) [] ?_ (by simp) t ht b hbt
      intro x hx hxw
      exact ⟨(List.mem_filter.mp hx).2, hxw⟩
    exact isIdChar_toLower b hP.1 hP.2

/-- generate_id fixes any string made only of id characters. -/
theorem generate_id_fixed (s : String) (hall : ∀ c ∈ s.data, isIdChar c = true) :
    generate_id s = s := by
  have hfilter : s.data.filter isKept = s.data :=
    List.filter_eq_self.mpr (fun c hc => isKept_of_idChar c (hall c hc))
  have hnows : ∀ c ∈ s.data, isPyWs c = false :=
    fun c hc => not_ws_of_idChar c (hall c hc)
  have hmap : s.data.map Char.toLower = s.data :=
    (List.map_congr_left (fun x hx => toLower_eq_self_of_idChar x (hall x hx))).trans
      (List.map_id _)
  unfold generate_id
  rw [hfilter, splitWs_no_ws _ [] hnows]
  simp only [List.reverse_nil, List.nil_append]
  by_cases hout : s.data = []
  · rw [if_pos hout]
    apply String.ext
    simp [joinUnd, hout]
  · rw [if_neg hout]
    rw [show joinUnd [s.data] = s.data from rfl]
    rw [hmap]

/-- Deriving an id from a derived id returns it unchanged. -/
theorem generate_id_idem (name : String) :
    generate_id (generate_id name) = generate_id name :=
  generate_id_fixed (generate_id name) (generate_id_chars name)

/-- An id character is not ASCII uppercase. -/
theorem not_upper_of_idChar (c : Char) (h : isIdChar c = true) : isAsciiUpper c = false := by
  cases hu : isAsciiUpper c
  · rfl
  · exfalso
    simp [isAsciiUpper] at hu
    simp [isIdChar, isAsciiLower, isAsciiDigit] at h
    rcases h with ((h | h) | h) | h
    · omega
    · omega
    · subst h; revert hu; decide
    · subst h; revert hu; decide

/-! ## Claim C5 -/

/-- C5 counterexample: the derived id does not replace every whitespace run
by a single underscore: on the name consisting of a space followed by the
letter a, the code produces a while the literal reading of the claim
produces underscore a — a leading whitespace run is dropped, not replaced. -/
theorem c5_ws_literal_counterexample :
    generate_id " a" = "a" ∧ generateIdRunsLiteral " a" = "_a" ∧
      generate_id " a" ≠ generateIdRunsLiteral " a" :=
  ⟨by decide, by decide, by decide⟩

/-- C5 (amended): for every name that is nonempty after stripping, the
derived id contains only characters of the class lowercase letter, digit,
underscore, hyphen (hence no uppercase), equals the computation that trims
leading and trailing whitespace from the scrubbed name and replaces each
interior whitespace run by a single underscore, and the derivation is
idempotent. -/
theorem c5_generate_id_normalization (name : String) (h : generate_id name ≠ "") :
    (∀ c ∈ (generate_id name).data, isIdChar c = true) ∧
    (∀ c ∈ (generate_id name).data, isAsciiUpper c = false) ∧
    generate_id name = generateIdRunsTrimmed name ∧
    generate_id (generate_id name) = generate_id name :=
  ⟨generate_id_chars name,
   fun c hc => not_upper_of_idChar c (generate_id_chars name c hc),
   generate_id_eq_runsTrimmed name,
   generate_id_idem name⟩

/-- Witness for C5 at the spec's own end-to-end example name. -/
theorem c5_generate_id_normalization_witness :
    generate_id "Core RTR #1" ≠ "" ∧
      ((∀ c ∈ (generate_id "Core RTR #1").data, isIdChar c = true) ∧
       (∀ c ∈ (generate_id "Core RTR #1").data, isAsciiUpper c = false) ∧
       generate_id "Core RTR #1" = generateIdRunsTrimmed "Core RTR #1" ∧
       generate_id (generate_id "Core RTR #1") = generate_id "Core RTR #1") :=
  ⟨by decide, c5_generate_id_normalization "Core RTR #1" (by decide)⟩

/-! ## Claim C6 -/

/-- A minimal environment for the concrete construction runs: an empty
catalog, one supported platform, no structured-output platforms, the
modelled alias table. -/
def envBasic : Env :=
  { catalog := [], supportedPlatforms := ["cisco_ios"], structuredPlatforms := []
  , scrapeHelpers := SCRAPE_HELPERS }

/-- A raw definition with no name field, only a legacy display_name. -/
def rawNoName : RawDevice :=
  { name := none, display_name := some "Router One", address := "10.0.0.1"
  , network := { display_name := "Net" }
  , credential := { username := "u", password := "p" }
  , proxy := none, port := none, platform := some "cisco_ios"
  , directives := [], structured_output := none, attrs := [] }

/-- A raw definition whose name consists only of stripped characters. -/
def rawHashName : RawDevice :=
  { rawNoName with name := some "###", display_name := none }

/-- The device the all-hashes name constructs: its derived id is empty. -/
def devHashName : Device :=
  { id := "", name := "###", address := "10.0.0.1"
  , network := { display_name := "Net" }
  , credential := { username := "u", password := "p" }
  , proxy := none, port := 22, platform := "cisco_ios"
  , directives := [], structured_output := false, attrs := [] }

/-- C6 counterexample: a missing name raises a plain ValueError, not a
ConfigError, and a name that is empty after stripping is not rejected at
all — the device constructs with an empty id. -/
theorem c6_name_errors_counterexample :
    deviceConstruct envBasic rawNoName = .error (.valueError "name is required.") ∧
    deviceConstruct envBasic rawHashName = .ok devHashName ∧
    devHashName.id = "" :=
  ⟨rfl, rfl, rfl⟩

/-- C6 (amended): device construction fails, with a ValueError rather than a
ConfigError, exactly when the raw definition has no name field; the legacy
display_name alone does not substitute for it. -/
theorem c6_missing_name_value_error (env : Env) (raw : RawDevice)
    (h : raw.name = none) :
    deviceConstruct env raw = .error (.valueError "name is required.") := by
  unfold deviceConstruct
  rw [h]

/-- Witness for C6 at the concrete nameless definition. -/
theorem c6_missing_name_value_error_witness :
    rawNoName.name = none ∧
      deviceConstruct envBasic rawNoName = .error (.valueError "name is required.") :=
  ⟨rfl, c6_missing_name_value_error envBasic rawNoName rfl⟩

/-! ## Claim C1 -/

/-- C1: after directive resolution, the attribute check fails with a
ConfigError naming the device and a missing key exactly when some non-target
placeholder key of some resolved command is absent from attrs; when every
such key is present, the validation passes. -/
theorem c1_directive_attrs_validation (d : Device) :
    ((∃ k ∈ fmtKeys d.directives, attrsHaveKey d.attrs k = false) →
      ∃ k, k ∈ fmtKeys d.directives ∧ attrsHaveKey d.attrs k = false ∧
        validate_directive_attrs d =
          .error (.configError "command references attribute missing from device attributes" d.name k)) ∧
    ((∀ k ∈ fmtKeys d.directives, attrsHaveKey d.attrs k = true) →
      validate_directive_attrs d = .ok ()) := by
  constructor
  · rintro ⟨k, hk, hmiss⟩
    have hsome : ((fmtKeys d.directives).find? (fun k => !(attrsHaveKey d.attrs k))).isSome := by
      rw [List.find?_isSome]
      exact ⟨k, hk, by simp [hmiss]⟩
    cases hfind : (fmtKeys d.directives).find? (fun k => !(attrsHaveKey d.attrs k)) with
    | none => rw [hfind] at hsome; simp at hsome
    | some k2 =>
      refine ⟨k2, List.mem_of_find?_eq_some hfind, ?_, ?_⟩
      · have := List.find?_some hfind
        simpa using this
      · unfold validate_directive_attrs
        rw [hfind]
  · intro hall
    unfold validate_directive_attrs
    have hnone : (fmtKeys d.directives).find? (fun k => !(attrsHaveKey d.attrs k)) = none := by
      rw [List.find?_eq_none]
      intro x hx
      simp [hall x hx]
    rw [hnone]

/-- A directive whose command references the vrf placeholder besides the
reserved target placeholder. -/
def directiveVrf : Directive :=
  { id := "bgp-route"
  , rules := [{ commands := ["show bgp \x7btarget\x7d vrf \x7bvrf\x7d"] }]
  , plugins := [], builtinPlatforms := [] }

/-- A device carrying the vrf-referencing directive and a vrf attribute. -/
def devWithVrf : Device :=
  { devHashName with
    id := "r1", name := "R1", directives := [directiveVrf], attrs := [("vrf", "global")] }

/-- The same device without the vrf attribute. -/
def devMissingVrf : Device :=
  { devWithVrf with attrs := [] }

/-- Witness for C1: the missing vrf attribute is reported with the device
name and the key, and the complete attrs pass. -/
theorem c1_directive_attrs_validation_witness :
    ((∃ k ∈ fmtKeys devMissingVrf.directives, attrsHaveKey devMissingVrf.attrs k = false) ∧
      ∃ k, k ∈ fmtKeys devMissingVrf.directives ∧ attrsHaveKey devMissingVrf.attrs k = false ∧
        validate_directive_attrs devMissingVrf =
          .error (.configError "command references attribute missing from device attributes" devMissingVrf.name k)) ∧
    ((∀ k ∈ fmtKeys devWithVrf.directives, attrsHaveKey devWithVrf.attrs k = true) ∧
      validate_directive_attrs devWithVrf = .ok ()) :=
  ⟨⟨by decide, (c1_directive_attrs_validation devMissingVrf).1 (by decide)⟩,
   ⟨by decide, (c1_directive_attrs_validation devWithVrf).2 (by decide)⟩⟩

/-! ## Claim C7 -/

/-- C7: the structured_output field defaults to true when unset on a
supporting platform, explicit true on a non-supporting platform is a
ConfigError naming the device and platform, unset on a non-supporting
platform defaults to false, and explicit false stays false. -/
theorem c7_structured_output_resolution (sp : List String) (platform name : String) :
    (sp.contains platform = true →
      validate_structured_output none platform name sp = .ok true) ∧
    (sp.contains platform = false →
      validate_structured_output (some true) platform name sp =
        .error (.configError "structured_output true on platform without structured output support" name platform)) ∧
    (sp.contains platform = false →
      validate_structured_output none platform name sp = .ok false) ∧
    validate_structured_output (some false) platform name sp = .ok false := by
  refine ⟨?_, ?_, ?_, rfl⟩ <;> intro h <;> simp only [validate_structured_output, h] <;> rfl

/-- Witness for C7 on concrete platforms. -/
theorem c7_structured_output_resolution_witness :
    validate_structured_output none "cisco_ios" "R1" ["cisco_ios"] = .ok true ∧
    validate_structured_output (some true) "frr" "R1" ["cisco_ios"] =
      .error (.configError "structured_output true on platform without structured output support" "R1" "frr") ∧
    validate_structured_output none "frr" "R1" ["cisco_ios"] = .ok false ∧
    validate_structured_output (some false) "frr" "R1" ["cisco_ios"] = .ok false :=
  ⟨(c7_structured_output_resolution ["cisco_ios"] "cisco_ios" "R1").1 (by decide),
   (c7_structured_output_resolution ["cisco_ios"] "frr" "R1").2.1 (by decide),
   (c7_structured_output_resolution ["cisco_ios"] "frr" "R1").2.2.1 (by decide),
   (c7_structured_output_resolution ["cisco_ios"] "frr" "R1").2.2.2⟩

/-! ## Claim C9 -/

/-- C9: export_api returns exactly the id, name, and network display name,
and its result is identical for any two devices agreeing on those three
fields, whatever their credential, attrs, address, proxy or other fields. -/
theorem c9_export_api_projection (d : Device) :
    export_api d = { id := d.id, name := d.name, network := d.network.display_name } ∧
    ∀ d2 : Device, d.id = d2.id → d.name = d2.name →
      d.network.display_name = d2.network.display_name →
      export_api d = export_api d2 := by
  constructor
  · rfl
  · intro d2 h1 h2 h3
    simp [export_api, h1, h2, h3]

/-- A device with benign connection data. -/
def devPublic : Device :=
  { devHashName with id := "r9", name := "R9" }

/-- The same public face with different secret and connection data. -/
def devPrivate : Device :=
  { devPublic with
    address := "10.9.9.9",
    credential := { username := "admin", password := "hunter2" },
    attrs := [("vrf", "x")],
    proxy := some "proxy1" }

/-- Witness for C9: two devices differing in credential, address, attrs and
proxy export identically. -/
theorem c9_export_api_projection_witness :
    devPublic.credential ≠ devPrivate.credential ∧
    devPublic.address ≠ devPrivate.address ∧
    devPublic.attrs ≠ devPrivate.attrs ∧
    export_api devPublic = export_api devPrivate :=
  ⟨by decide, by decide, by decide,
   (c9_export_api_projection devPublic).2 devPrivate rfl rfl rfl⟩

/-! ## Claim C10 -/

/-- Appending attribute entries never removes a key. -/
theorem attrsHaveKey_append (attrs extra : List (String × String)) (k : String)
    (h : attrsHaveKey attrs k = true) : attrsHaveKey (attrs ++ extra) k = true := by
  unfold attrsHaveKey at h ⊢
  rw [List.any_append, h]
  rfl

/-- A passing attribute validation keeps passing after appending attrs. -/
theorem validate_directive_attrs_append (d : Device) (extra : List (String × String))
    (h : validate_directive_attrs d = .ok ()) :
    validate_directive_attrs { d with attrs := d.attrs ++ extra } = .ok () := by
  unfold validate_directive_attrs at h ⊢
  cases hfind : (fmtKeys d.directives).find? (fun k => !(attrsHaveKey d.attrs k)) with
  | some k => rw [hfind] at h; simp at h
  | none =>
    have hall := List.find?_eq_none.mp hfind
    have hnone : (fmtKeys d.directives).find? (fun k => !(attrsHaveKey (d.attrs ++ extra) k)) = none := by
      rw [List.find?_eq_none]
      intro x hx
      have hx2 := hall x hx
      simp only [Bool.not_eq_true', Bool.not_eq_false] at hx2 ⊢
      exact attrsHaveKey_append d.attrs extra x hx2
    simp only [hnone]

/-- C10: attrs entries no command references never break construction: a
successfully constructed device still constructs after arbitrary extra
attribute pairs are appended, yielding the same device with the larger
attrs. -/
theorem c10_extra_attrs_harmless (env : Env) (raw : RawDevice)
    (extra : List (String × String)) (d : Device)
    (h : deviceConstruct env raw = .ok d) :
    deviceConstruct env { raw with attrs := raw.attrs ++ extra } =
      .ok { d with attrs := d.attrs ++ extra } := by
  obtain ⟨nme, dn, addr, net, cred, prox, prt, plat, dirs, soo, att⟩ := raw
  unfold deviceConstruct at h ⊢
  cases nme with
  | none => simp at h
  | some nm =>
    cases plat with
    | none => simp at h
    | some p0 =>
      dsimp only at h ⊢
      by_cases hsup : env.supportedPlatforms.contains (rewriteAlias env.scrapeHelpers p0) = true
      · rw [if_pos hsup] at h ⊢
        split at h
        · simp at h
        next sov hso =>
          split at h
          · simp at h
          next u hva =>
            simp only [Except.ok.injEq] at h
            subst h
            have hva2 := validate_directive_attrs_append _ extra (by cases u; exact hva)
            dsimp only at hva2 ⊢
            rw [hva2]
      · rw [if_neg hsup] at h
        simp at h

/-- Witness for C10: appending an unreferenced attribute to a constructed
device keeps construction succeeding. -/
theorem c10_extra_attrs_harmless_witness :
    deviceConstruct envBasic rawHashName = .ok devHashName ∧
    deviceConstruct envBasic { rawHashName with attrs := rawHashName.attrs ++ [("x", "y")] } =
      .ok { devHashName with attrs := devHashName.attrs ++ [("x", "y")] } :=
  ⟨rfl, c10_extra_attrs_harmless envBasic rawHashName [("x", "y")] devHashName rfl⟩

/-! ## Claim C4 -/

/-- C4: a device declaring a platform alias resolves exactly as the same
definition declaring the canonical platform value, the rewrite happening
before the support check; canonical values are themselves unaliased. -/
theorem c4_alias_equivalence (env : Env) (raw : RawDevice) (p canonical : String)
    (hp : raw.platform = some p)
    (halias : rewriteAlias env.scrapeHelpers p = canonical)
    (hcanon : rewriteAlias env.scrapeHelpers canonical = canonical) :
    deviceConstruct env raw = deviceConstruct env { raw with platform := some canonical } := by
  obtain ⟨nme, dn, addr, net, cred, prox, prt, plat, dirs, soo, att⟩ := raw
  dsimp only at hp
  subst hp
  unfold deviceConstruct
  cases nme with
  | none => rfl
  | some nm =>
    dsimp only
    rw [halias, hcanon]

/-- A raw definition declaring the deprecated ios alias. -/
def rawIos : RawDevice :=
  { rawHashName with name := some "R4", platform := some "ios" }

/-- Witness for C4 at the modelled alias table entry ios to cisco_ios. -/
theorem c4_alias_equivalence_witness :
    rawIos.platform = some "ios" ∧
    rewriteAlias SCRAPE_HELPERS "ios" = "cisco_ios" ∧
    rewriteAlias SCRAPE_HELPERS "cisco_ios" = "cisco_ios" ∧
    deviceConstruct envBasic rawIos =
      deviceConstruct envBasic { rawIos with platform := some "cisco_ios" } :=
  ⟨rfl, rfl, rfl, c4_alias_equivalence envBasic rawIos "ios" "cisco_ios" rfl rfl rfl⟩

/-! ## Claim C2 -/

/-- The left fold of the options merge computes the last builtins value set
by a mapping entry, the given default when none sets it. -/
theorem mergedBuiltinsOption_fold (entries : List DirectiveEntry) :
    ∀ acc : BuiltinsValue,
      entries.foldl
        (fun acc e =>
          match e with
          | .ref _ => acc
          | .options b =>
            match b with
            | some v => v
            | none => acc) acc =
      (entries.reverse.findSome?
        (fun e =>
          match e with
          | .options (some v) => some v
          | _ => none)).getD acc := by
  induction entries with
  | nil => intro acc; rfl
  | cons e rest ih =>
    intro acc
    rw [List.foldl_cons, List.reverse_cons, List.findSome?_append, ih]
    cases hfs : rest.reverse.findSome?
        (fun e =>
          match e with
          | .options (some v) => some v
          | _ => none) with
    | some v => simp [Option.or]
    | none =>
      simp only [Option.or]
      cases e with
      | ref s => rfl
      | options b =>
        cases b with
        | some v => rfl
        | none => rfl

/-- The dict-merge of mapping entries equals the claim's last-set-value
description. -/
theorem mergedBuiltinsOption_eq_spec (entries : List DirectiveEntry) :
    mergedBuiltinsOption entries = specBuiltinsChoice entries :=
  mergedBuiltinsOption_fold entries (.bool true)

/-- The accumulator fold of dedupById equals the recursive first-occurrence
dedup of the remaining elements not represented in the accumulator. -/
theorem dedupById_fold :
    ∀ (l : List Directive) (acc : List Directive),
      l.foldl (fun acc d => if acc.any (fun e => e.id = d.id) then acc else acc ++ [d]) acc =
        acc ++ specDedup (l.filter (fun d => acc.all (fun e => e.id ≠ d.id))) := by
  intro l
  induction l with
  | nil => intro acc; simp [specDedup]
  | cons d rest ih =>
    intro acc
    rw [List.foldl_cons]
    by_cases hmem : acc.any (fun e => e.id = d.id) = true
    · rw [if_pos hmem, ih]
      have hcond : (acc.all (fun e => e.id ≠ d.id)) = false := by
        rcases List.any_eq_true.mp hmem with ⟨e, he, heid⟩
        apply List.all_eq_false.mpr
        exact ⟨e, he, by simpa using heid⟩
      rw [List.filter_cons, hcond]
      simp
    · rw [if_neg hmem, ih]
      have hcond : (acc.all (fun e => e.id ≠ d.id)) = true := by
        rw [List.all_eq_true]
        intro e he
        rcases hany : (decide (e.id = d.id)) with _ | _
        · simpa using hany
        · exact absurd (List.any_eq_true.mpr ⟨e, he, hany⟩) hmem
      rw [List.filter_cons, hcond]
      simp only [if_pos]
      rw [show specDedup (d :: List.filter (fun x => acc.all fun e => e.id ≠ x.id) rest) =
        d :: specDedup ((List.filter (fun x => acc.all fun e => e.id ≠ x.id) rest).filter
          (fun e => e.id ≠ d.id)) from by simp [specDedup]]
      rw [List.filter_filter]
      have hfeq : rest.filter (fun x => decide (x.id ≠ d.id) && acc.all fun e => e.id ≠ x.id) =
          rest.filter (fun x => (acc ++ [d]).all fun e => e.id ≠ x.id) := by
        apply List.filter_congr
        intro x _
        rw [List.all_append]
        simp [Bool.and_comm, eq_comm]
      rw [hfeq]
      simp

/-- dedupById is the recursive first-occurrence dedup. -/
theorem dedupById_eq_spec (l : List Directive) : dedupById l = specDedup l := by
  unfold dedupById
  rw [dedupById_fold l []]
  simp

/-- specDedup is the identity on lists with no duplicate ids. -/
theorem specDedup_of_nodup :
    ∀ l : List Directive, (l.map Directive.id).Nodup → specDedup l = l := by
  intro l
  induction l with
  | nil => intro _; simp [specDedup]
  | cons d rest ih =>
    intro h
    rw [List.map_cons, List.nodup_cons] at h
    have hfilter : rest.filter (fun e => e.id ≠ d.id) = rest := by
      apply List.filter_eq_self.mpr
      intro e he
      simp only [ne_eq, decide_not, Bool.not_eq_eq_eq_not, Bool.not_true, decide_eq_false_iff_not]
      intro heq
      exact h.1 (heq ▸ List.mem_map_of_mem Directive.id he)
    rw [show specDedup (d :: rest) = d :: specDedup (rest.filter (fun e => e.id ≠ d.id)) from by
      simp [specDedup]]
    rw [hfilter, ih h.2]

/-- The resolved directives of validate_device match the claim's description
whenever the catalog has no duplicate ids. -/
theorem resolve_directives_eq_spec (catalog : List Directive) (platform : String)
    (entries : List DirectiveEntry)
    (hnodup : (catalog.map Directive.id).Nodup) :
    resolve_directives catalog platform entries = c2SpecDirectives catalog platform entries := by
  unfold resolve_directives c2SpecDirectives
  rw [mergedBuiltinsOption_eq_spec]
  cases hopt : specBuiltinsChoice entries with
  | bool b =>
    cases b with
    | true =>
      dsimp only
      unfold addDirectives
      rw [dedupById_eq_spec]
      rfl
    | false =>
      dsimp only
      rw [show (filterByIds catalog (entries.filterMap fun e =>
        match e with
        | .ref s => if startsWithDunder s then none else some s
        | .options _ => none)) = catalog.filter (fun d => (entries.filterMap fun e =>
        match e with
        | .ref s => if startsWithDunder s then none else some s
        | .options _ => none).contains d.id) from rfl]
      rw [List.append_nil]
      rw [specDedup_of_nodup]
      apply List.Nodup.sublist ?_ hnodup
      exact List.Sublist.map Directive.id (List.filter_sublist catalog)
  | ids l =>
    dsimp only
    unfold addDirectives
    rw [dedupById_eq_spec]
    rfl

/-- A successfully constructed device's directives field is the directive
resolution of its platform. -/
theorem deviceConstruct_directives (env : Env) (raw : RawDevice) (d : Device)
    (h : deviceConstruct env raw = .ok d) :
    d.directives = resolve_directives env.catalog d.platform raw.directives := by
  obtain ⟨nme, dn, addr, net, cred, prox, prt, plat, dirs, soo, att⟩ := raw
  unfold deviceConstruct at h
  cases nme with
  | none => simp at h
  | some nm =>
    cases plat with
    | none => simp at h
    | some p0 =>
      dsimp only at h
      by_cases hsup : env.supportedPlatforms.contains (rewriteAlias env.scrapeHelpers p0) = true
      · rw [if_pos hsup] at h
        split at h
        · simp at h
        next sov hso =>
          split at h
          · simp at h
          next u hva =>
            simp only [Except.ok.injEq] at h
            subst h
            rfl
      · rw [if_neg hsup] at h
        simp at h

/-- C2: for every successfully constructed device, the resolved directives
field equals the catalog resolution of the explicit non-sentinel string
entries followed by the effective built-ins of the device's platform (all of
them by default, a listed subset, or none), duplicates by id removed keeping
the first occurrence. -/
theorem c2_directive_resolution (env : Env) (raw : RawDevice) (d : Device)
    (hnodup : (env.catalog.map Directive.id).Nodup)
    (h : deviceConstruct env raw = .ok d) :
    d.directives = c2SpecDirectives env.catalog d.platform raw.directives := by
  rw [deviceConstruct_directives env raw d h]
  exact resolve_directives_eq_spec env.catalog d.platform raw.directives hnodup

/-- An explicit directive of the catalog. -/
def directiveBgp : Directive :=
  { id := "show-bgp", rules := [], plugins := [], builtinPlatforms := [] }

/-- A built-in directive of the cisco_ios platform. -/
def directiveTrace : Directive :=
  { id := "builtin-trace", rules := [], plugins := [], builtinPlatforms := ["cisco_ios"] }

/-- An environment with a two-directive catalog. -/
def envCatalog : Env :=
  { catalog := [directiveBgp, directiveTrace],
    supportedPlatforms := ["cisco_ios"],
    structuredPlatforms := [],
    scrapeHelpers := SCRAPE_HELPERS }

/-- A raw definition with one explicit directive and one sentinel entry. -/
def rawC2 : RawDevice :=
  { rawHashName with name := some "R2", directives := [.ref "show-bgp", .ref "__internal"] }

/-- The device rawC2 constructs: the explicit directive first, then the
platform built-in. -/
def devC2 : Device :=
  { devHashName with
    id := "r2", name := "R2", directives := [directiveBgp, directiveTrace] }

/-- Witness for C2 on the concrete catalog. -/
theorem c2_directive_resolution_witness :
    (envCatalog.catalog.map Directive.id).Nodup ∧
    deviceConstruct envCatalog rawC2 = .ok devC2 ∧
    devC2.directives = c2SpecDirectives envCatalog.catalog devC2.platform rawC2.directives :=
  ⟨by decide, rfl, c2_directive_resolution envCatalog rawC2 devC2 (by decide) rfl⟩

/-! ## Claim C3 -/

/-- A list whose any-test for an id is false has no device of that id. -/
theorem filter_id_eq_nil (i : String) (acc : List Device)
    (h : acc.any (fun e => e.id = i) = false) :
    acc.filter (fun e => e.id = i) = [] := by
  rw [List.filter_eq_nil_iff]
  intro e he hp
  have htrue : acc.any (fun e => e.id = i) = true :=
    List.any_eq_true.mpr ⟨e, he, hp⟩
  rw [htrue] at h
  cases h

/-- If the accumulator has a device of id i but none of id d.id, the two ids
differ. -/
theorem id_ne_of_any (i : String) (d : Device) (acc : List Device)
    (h : acc.any (fun e => e.id = i) = true)
    (hd : acc.any (fun e => e.id = d.id) = false) :
    (decide (d.id = i)) = false := by
  rcases List.any_eq_true.mp h with ⟨e, he, hei⟩
  by_contra hcon
  simp only [Bool.not_eq_false, decide_eq_true_eq] at hcon
  simp only [decide_eq_true_eq] at hei
  have htrue : acc.any (fun e => e.id = d.id) = true :=
    List.any_eq_true.mpr ⟨e, he, by simp [hei, hcon]⟩
  rw [htrue] at hd
  cases hd

/-- The one-step unfolding of a set-add. -/
theorem pySetAddDevice_step (acc : List Device) (d : Device) :
    pySetAddDevice acc d =
      if acc.any (fun e => e.id = d.id) then acc else acc ++ [d] := rfl

/-- Once the accumulator holds a device of some id, later set-adds never
change the entries of that id. -/
theorem pySetAdd_fold_any (i : String) :
    ∀ (ds acc : List Device), acc.any (fun e => e.id = i) = true →
      (ds.foldl pySetAddDevice acc).filter (fun e => e.id = i) =
        acc.filter (fun e => e.id = i) := by
  intro ds
  induction ds with
  | nil => intro acc _; rfl
  | cons d rest ih =>
    intro acc h
    rw [List.foldl_cons, pySetAddDevice_step]
    by_cases hd : acc.any (fun e => e.id = d.id) = true
    . rw [if_pos hd]
      exact ih acc h
    . rw [if_neg hd]
      have hdi : (decide (d.id = i)) = false :=
        id_ne_of_any i d acc h (by simpa using hd)
      rw [ih (acc ++ [d]) (by rw [List.any_append]; simp [h])]
      rw [List.filter_append]
      simp [hdi]

/-- Folding set-adds over constructed devices keeps, for every id, exactly
the first constructed device of that id. -/
theorem pySetAdd_fold_filter (i : String) :
    ∀ (ds acc : List Device), acc.any (fun e => e.id = i) = false →
      (ds.foldl pySetAddDevice acc).filter (fun e => e.id = i) =
        (ds.filter (fun e => e.id = i)).take 1 := by
  intro ds
  induction ds with
  | nil =>
    intro acc h
    simp only [List.foldl_nil, List.filter_nil, List.take_nil]
    exact filter_id_eq_nil i acc h
  | cons d rest ih =>
    intro acc h
    rw [List.foldl_cons, pySetAddDevice_step]
    by_cases hd : acc.any (fun e => e.id = d.id) = true
    . rw [if_pos hd]
      have hdi : (decide (d.id = i)) = false := by
        by_contra hcon
        simp only [Bool.not_eq_false, decide_eq_true_eq] at hcon
        rw [hcon] at hd
        rw [hd] at h
        cases h
      rw [ih acc h, List.filter_cons, hdi]
      simp
    . rw [if_neg hd]
      by_cases hdi : d.id = i
      . have hany2 : (acc ++ [d]).any (fun e => e.id = i) = true := by
          rw [List.any_append]
          simp [hdi]
        rw [pySetAdd_fold_any i rest (acc ++ [d]) hany2]
        rw [List.filter_append, List.filter_cons]
        rw [filter_id_eq_nil i acc h]
        simp [hdi]
      . have hany2 : (acc ++ [d]).any (fun e => e.id = i) = false := by
          rw [List.any_append]
          simp [h, hdi]
        rw [ih (acc ++ [d]) hany2, List.filter_cons]
        simp [hdi]

/-- Insertion keeps the inserted element, as a permutation. -/
theorem insertByName_perm (d : Device) :
    ∀ l : List Device, (insertByName d l).Perm (d :: l) := by
  intro l
  induction l with
  | nil => exact List.Perm.refl _
  | cons e rest ih =>
    unfold insertByName
    by_cases hle : charListLe d.name.data e.name.data = true
    · rw [if_pos hle]
    · rw [if_neg hle]
      exact (ih.cons e).trans (List.Perm.swap d e rest)

/-- Sorting by name permutes the device list. -/
theorem sortByName_perm (ds : List Device) : (sortByName ds).Perm ds := by
  unfold sortByName
  induction ds with
  | nil => exact List.Perm.refl _
  | cons d rest ih =>
    rw [List.foldr_cons]
    exact (insertByName_perm d _).trans (ih.cons d)

/-- C3 (amended): when every definition constructs, the directory retains for
each id exactly one device, the first constructed device of that id
(first-write-wins), with no error raised. -/
theorem c3_duplicate_id_first_wins (env : Env) (input : List RawDevice)
    (ds : List Device) (devs : Devices) (i : String)
    (hmap : input.mapM (deviceConstruct env) = .ok ds)
    (hinit : devicesInit env input = .ok devs) :
    devs.objects.filter (fun e => e.id = i) = (ds.filter (fun e => e.id = i)).take 1 := by
  unfold devicesInit at hinit
  rw [hmap] at hinit
  simp only [Except.ok.injEq] at hinit
  subst hinit
  have hperm := (sortByName_perm (ds.foldl pySetAddDevice [])).filter (fun e => e.id = i)
  rw [pySetAdd_fold_filter i ds [] (by simp)] at hperm
  cases hfl : ds.filter (fun e => e.id = i) with
  | nil =>
    rw [hfl] at hperm
    simp only [List.take_nil] at hperm
    simpa using hperm.eq_nil
  | cons a l =>
    rw [hfl] at hperm
    simp only [List.take_succ_cons, List.take_zero] at hperm
    simpa using List.perm_singleton.mp hperm

/-- A raw definition named R1. -/
def rawDupA : RawDevice :=
  { rawHashName with name := some "R1" }

/-- Another raw definition yielding the same id with a different address. -/
def rawDupB : RawDevice :=
  { rawDupA with address := "10.0.0.2" }

/-- The device rawDupA constructs. -/
def devDupA : Device :=
  { devHashName with id := "r1", name := "R1" }

/-- The device rawDupB constructs. -/
def devDupB : Device :=
  { devDupA with address := "10.0.0.2" }

/-- The directory the duplicate pair produces: only the first device. -/
def devsDup : Devices :=
  { ids := ["r1"], hostnames := ["R1"], objects := [devDupA] }

/-- C3 counterexample: two definitions with the same derived id construct
without error and the directory retains exactly one entry, but the retained
entry is the first-constructed device, not the last-constructed one. -/
theorem c3_last_write_counterexample :
    devicesInit envBasic [rawDupA, rawDupB] = .ok devsDup ∧
    deviceConstruct envBasic rawDupB = .ok devDupB ∧
    devsDup.objects = [devDupA] ∧
    devDupA ≠ devDupB :=
  ⟨rfl, rfl, rfl, by decide⟩

/-- Witness for the amended C3 on the concrete duplicate pair. -/
theorem c3_duplicate_id_first_wins_witness :
    [rawDupA, rawDupB].mapM (deviceConstruct envBasic) = .ok [devDupA, devDupB] ∧
    devicesInit envBasic [rawDupA, rawDupB] = .ok devsDup ∧
    devsDup.objects.filter (fun e => e.id = "r1") =
      ([devDupA, devDupB].filter (fun e => e.id = "r1")).take 1 :=
  ⟨rfl, rfl, c3_duplicate_id_first_wins envBasic [rawDupA, rawDupB]
    [devDupA, devDupB] devsDup "r1" rfl rfl⟩

/-! ## Claim C8 -/

/-- Unfolding a plugin-index lookup one entry. -/
theorem lookupPlugin_cons (e : String × List String) (rest : List (String × List String))
    (p : String) :
    lookupPlugin (e :: rest) p = if e.1 = p then some e.2 else lookupPlugin rest p := by
  unfold lookupPlugin
  rw [List.find?_cons]
  by_cases h : e.1 = p
  · simp [h]
  · simp [h]

/-- A plugin-index update changes exactly the updated plugin's entry, adding
the directive id to it when absent. -/
theorem lookupPlugin_addPluginId :
    ∀ (res : List (String × List String)) (p q i : String),
      lookupPlugin (addPluginId res q i) p =
        if p = q then
          match lookupPlugin res q with
          | none => some [i]
          | some ids => some (if ids.contains i then ids else ids ++ [i])
        else lookupPlugin res p := by
  intro res
  induction res with
  | nil =>
    intro p q i
    by_cases h : p = q
    · subst h
      simp [addPluginId, lookupPlugin]
    · simp [addPluginId, lookupPlugin_cons, lookupPlugin, h]
      intro hq
      exact absurd hq.symm h
  | cons e rest ih =>
    intro p q i
    rw [show addPluginId (e :: rest) q i =
      if e.1 = q then (e.1, if e.2.contains i then e.2 else e.2 ++ [i]) :: rest
      else e :: addPluginId rest q i from rfl]
    by_cases he : e.1 = q
    · rw [if_pos he]
      by_cases hp : p = q
      · subst hp
        simp [lookupPlugin_cons, he]
      · have hep : ¬(e.1 = p) := by rw [he]; exact fun hh => hp hh.symm
        simp [lookupPlugin_cons, hep, hp]
    · rw [if_neg he]
      by_cases hep : e.1 = p
      · have hp : ¬(p = q) := fun hh => he (hep.trans hh)
        simp [lookupPlugin_cons, hep, hp]
      · by_cases hp : p = q
        · subst hp
          simp [lookupPlugin_cons, hep, he, ih]
        · simp [lookupPlugin_cons, hep, he, hp, ih]

/-- Membership in the index after one update. -/
theorem mem_lookupPlugin_addPluginId (res : List (String × List String))
    (p q i j : String) :
    (∃ ids, lookupPlugin (addPluginId res q i) p = some ids ∧ j ∈ ids) ↔
      ((∃ ids, lookupPlugin res p = some ids ∧ j ∈ ids) ∨ (p = q ∧ j = i)) := by
  rw [lookupPlugin_addPluginId]
  by_cases hp : p = q
  · subst hp
    rw [if_pos rfl]
    cases hl : lookupPlugin res p with
    | none => simp
    | some ids =>
      by_cases hc : ids.contains i = true
      · have hi : i ∈ ids := List.mem_of_elem_eq_true hc
        dsimp only
        rw [if_pos hc]
        simp only [Option.some.injEq, true_and]
        constructor
        · rintro ⟨ids2, hids2, hj⟩
          subst hids2
          exact Or.inl ⟨ids, rfl, hj⟩
        · rintro (⟨ids2, hids2, hj⟩ | hj)
          · subst hids2
            exact ⟨ids, rfl, hj⟩
          · exact ⟨ids, rfl, hj ▸ hi⟩
      · dsimp only
        rw [if_neg hc]
        simp only [Option.some.injEq, true_and]
        constructor
        · rintro ⟨ids2, hids2, hj⟩
          subst hids2
          rcases List.mem_append.mp hj with hj | hj
          · exact Or.inl ⟨ids, rfl, hj⟩
          · exact Or.inr (by simpa using hj)
        · rintro (⟨ids2, hids2, hj⟩ | hj)
          · subst hids2
            exact ⟨ids ++ [i], rfl, List.mem_append.mpr (Or.inl hj)⟩
          · exact ⟨ids ++ [i], rfl, List.mem_append.mpr (Or.inr (by simp [hj]))⟩
  · rw [if_neg hp]
    simp [hp]

/-- Membership after folding one directive's plugins into the index. -/
theorem mem_lookup_plugins_fold (i0 : String) :
    ∀ (ps : List String) (res : List (String × List String)) (p j : String),
      (∃ ids, lookupPlugin (ps.foldl (fun res p => addPluginId res p i0) res) p = some ids ∧ j ∈ ids) ↔
        ((∃ ids, lookupPlugin res p = some ids ∧ j ∈ ids) ∨ (p ∈ ps ∧ j = i0)) := by
  intro ps
  induction ps with
  | nil => simp
  | cons q qs ih =>
    intro res p j
    rw [List.foldl_cons, ih, mem_lookupPlugin_addPluginId]
    constructor
    · rintro ((hbase | ⟨hpq, hj⟩) | ⟨hpin, hj⟩)
      · exact Or.inl hbase
      · exact Or.inr ⟨by simp [hpq], hj⟩
      · exact Or.inr ⟨List.mem_cons_of_mem q hpin, hj⟩
    · rintro (hbase | ⟨hpin, hj⟩)
      · exact Or.inl (Or.inl hbase)
      · rcases List.mem_cons.mp hpin with hpq | hpin
        · exact Or.inl (Or.inr ⟨hpq, hj⟩)
        · exact Or.inr ⟨hpin, hj⟩

/-- Membership after folding a directive list into the index. -/
theorem mem_lookup_directives_fold (pluginNames : List String) :
    ∀ (dl : List Directive) (res : List (String × List String)) (p j : String),
      (∃ ids, lookupPlugin
          (dl.foldl
            (fun result dir =>
              (dir.plugins.filter (fun q => pluginNames.contains q)).foldl
                (fun res p => addPluginId res p dir.id) result)
            res) p = some ids ∧ j ∈ ids) ↔
        ((∃ ids, lookupPlugin res p = some ids ∧ j ∈ ids) ∨
          ∃ dir, dir ∈ dl ∧ dir.id = j ∧
            p ∈ dir.plugins.filter (fun q => pluginNames.contains q)) := by
  intro dl
  induction dl with
  | nil => simp
  | cons dir rest ih =>
    intro res p j
    rw [List.foldl_cons, ih, mem_lookup_plugins_fold]
    constructor
    · rintro ((hbase | ⟨hpin, hj⟩) | ⟨d2, hd2, hid, hpl⟩)
      · exact Or.inl hbase
      · exact Or.inr ⟨dir, List.mem_cons_self _ _, hj.symm, hpin⟩
      · exact Or.inr ⟨d2, List.mem_cons_of_mem dir hd2, hid, hpl⟩
    · rintro (hbase | ⟨d2, hd2, hid, hpl⟩)
      · exact Or.inl (Or.inl hbase)
      · rcases List.mem_cons.mp hd2 with hd2 | hd2
        · subst hd2
          exact Or.inl (Or.inr ⟨hpl, hid.symm⟩)
        · exact Or.inr ⟨d2, hd2, hid, hpl⟩

/-- The directive A of the claim's example, with plugins p1 and p2. -/
def directiveA : Directive :=
  { id := "A", rules := [], plugins := ["p1", "p2"], builtinPlatforms := [] }

/-- The directive B of the claim's example, with plugin p2. -/
def directiveB : Directive :=
  { id := "B", rules := [], plugins := ["p2"], builtinPlatforms := [] }

/-- A device carrying the directives A and B. -/
def devAB : Device :=
  { devHashName with
    id := "rab", name := "RAB", directives := [directiveA, directiveB] }

/-- A directory holding the A and B device. -/
def devsAB : Devices :=
  { ids := ["rab"], hostnames := ["RAB"], objects := [devAB] }

/-- C8: directive_plugins maps a plugin to an id list containing exactly the
ids of the (deduplicated) directives in use that reference the plugin; on
the claim's example it maps p1 to A and p2 to A and B. -/
theorem c8_directive_plugins (devs : Devices) (p j : String) :
    ((∃ ids, lookupPlugin (directive_plugins devs) p = some ids ∧ j ∈ ids) ↔
      (∃ dir, dir ∈ dedupById (devs.objects.flatMap Device.directives) ∧
        dir.id = j ∧ p ∈ dir.plugins)) ∧
    (lookupPlugin (directive_plugins devsAB) "p1" = some ["A"] ∧
      lookupPlugin (directive_plugins devsAB) "p2" = some ["A", "B"]) := by
  refine ⟨?_, rfl, rfl⟩
  unfold directive_plugins
  rw [mem_lookup_directives_fold]
  constructor
  · rintro (⟨ids, hids, hj⟩ | ⟨dir, hdir, hid, hpl⟩)
    · simp [lookupPlugin] at hids
    · exact ⟨dir, hdir, hid, (List.mem_filter.mp hpl).1⟩
  · rintro ⟨dir, hdir, hid, hpl⟩
    right
    refine ⟨dir, hdir, hid, List.mem_filter.mpr ⟨hpl, ?_⟩⟩
    apply List.elem_eq_true_of_mem
    exact List.mem_flatMap.mpr ⟨dir, hdir, hpl⟩

end Hyperglass
